import Mathlib

/-!
Verification of the stock-batch inventory ledger of the Inventory_management
frontend repository.

The repository is a React/TypeScript front end.  The inventory engine itself
(batch store, allocation, reversal) lives behind REST endpoints
(`/inventory/available-stock`, `/inventory/stock-summary`, invoice posting);
only its callers appear in the sources, so the engine (`BatchEngine` below)
is modelled from the specification.  The client-side computations that do
appear in the sources (inward line totals, unit conversions, valuation,
low-stock flagging, suggested sale rates) are embedded directly from the
TypeScript in `Frontend` below.  JavaScript numbers are modelled as `ℚ`,
piece counts in the engine as `Int`.
-/

namespace BatchEngine

/-- Modelled from the spec: `StockBatch` (§3) — one purchase lot of one
product at one location, with fixed cost basis; `remainingPcs` is the
authoritative remaining quantity in pieces.  The batch-store code holding
these records is backend code not present in the repository sources. -/
structure Batch where
  id : Nat
  productId : Nat
  locationId : Nat
  inwardDate : Nat
  totalPcs : Int
  remainingPcs : Int
  costPerPcs : ℚ
deriving DecidableEq

/-- Modelled from the spec: `InventoryMovement` (§3) — pieces consumed from
one batch for one outward line, with the batch's cost per piece at
consumption time. -/
structure Movement where
  batchId : Nat
  qty : Int
  cost : ℚ
deriving DecidableEq

/-- Modelled from the spec: the Batch Store state (§4.2) plus the movement
ledger; `nextId` is the id assigned to the next created batch. -/
structure Ledger where
  batches : List Batch
  movements : List Movement
  nextId : Nat
deriving DecidableEq

/-- Modelled from the spec: the error taxonomy (§7) restricted to the
constructors the ledger operations emit. -/
inductive AllocError where
  | invalidQuantity
  | invalidCost
  | invalidRatio
  | insufficientStock (shortfallPieces : Int)
deriving DecidableEq

/-- Modelled from the spec: the optional location filter of
`listAvailable` (§4.2); `none` means all locations. -/
def locMatch (loc : Option Nat) (b : Batch) : Bool :=
  match loc with
  | none => true
  | some l => b.locationId == l

/-- Modelled from the spec: a batch is a candidate for an allocation of
product `p` under location filter `loc` when it matches both and has
`remainingPcs > 0` (§4.2 `listAvailable`). -/
def isCandidate (p : Nat) (loc : Option Nat) (b : Batch) : Bool :=
  b.productId == p && locMatch loc b && decide (0 < b.remainingPcs)

/-- Modelled from the spec: the FIFO order — inward date ascending,
ties broken by batch id ascending (§4.2, §4.4). -/
def fifoLE (b₁ b₂ : Batch) : Prop :=
  b₁.inwardDate < b₂.inwardDate ∨ (b₁.inwardDate = b₂.inwardDate ∧ b₁.id ≤ b₂.id)

instance : DecidableRel fifoLE := fun b₁ b₂ =>
  decidable_of_iff (b₁.inwardDate < b₂.inwardDate ∨
    (b₁.inwardDate = b₂.inwardDate ∧ b₁.id ≤ b₂.id)) Iff.rfl

instance : IsTotal Batch fifoLE := by
  constructor
  intro a b
  unfold fifoLE
  omega

instance : IsTrans Batch fifoLE := by
  constructor
  intro a b c hab hbc
  unfold fifoLE at hab hbc ⊢
  omega

/-- Modelled from the spec: `listAvailable(product, location?)` (§4.2) —
the candidate batches in deterministic FIFO order. -/
def listAvailable (s : Ledger) (p : Nat) (loc : Option Nat) : List Batch :=
  List.insertionSort fifoLE (s.batches.filter (isCandidate p loc))

/-- Modelled from the spec: total available pieces across the candidate
batches of an allocation request (§4.4 step 4). -/
def totalAvailable (s : Ledger) (p : Nat) (loc : Option Nat) : Int :=
  ((listAvailable s p loc).map Batch.remainingPcs).sum

/-- Modelled from the spec: the FIFO walk of §4.4 step 3 — consume
`min(batch.remainingPcs, stillNeededPieces)` from each batch in order,
emitting one movement per touched batch. -/
def planConsume : List Batch → Int → List Movement
  | [], _ => []
  | b :: bs, need =>
    if need ≤ 0 then []
    else
      let take := min b.remainingPcs need
      { batchId := b.id, qty := take, cost := b.costPerPcs } :: planConsume bs (need - take)

/-- Total pieces consumed from batch `id` by the movements `ms`
(the Σ of the conservation property, §8). -/
def consumedFor (id : Nat) (ms : List Movement) : Int :=
  ((ms.filter (fun m => m.batchId == id)).map Movement.qty).sum

/-- Modelled from the spec: committing an allocation plan — each batch is
decremented by exactly the pieces the plan consumes from it (§4.4 step 5). -/
def applyPlan (bs : List Batch) (plan : List Movement) : List Batch :=
  bs.map (fun b => { b with remainingPcs := b.remainingPcs - consumedFor b.id plan })

/-- Modelled from the spec: `Allocate(product, location, qty)` in pieces
(§4.4, §6).  Returns the post-call ledger together with either the emitted
movements or `InsufficientStock` carrying the shortfall; on rejection the
ledger is returned unchanged (no partial commit). -/
def allocate (s : Ledger) (p : Nat) (loc : Option Nat) (qty : Int) :
    Ledger × Except AllocError (List Movement) :=
  let avail := totalAvailable s p loc
  if avail < qty then
    (s, Except.error (AllocError.insufficientStock (qty - avail)))
  else
    let plan := planConsume (listAvailable s p loc) qty
    ({ batches := applyPlan s.batches plan,
       movements := s.movements ++ plan,
       nextId := s.nextId },
     Except.ok plan)

/-- Modelled from the spec: `createBatch` (§4.2) — validates, computes the
derived totals and per-piece cost, sets remaining = total, and persists a
fresh batch; validation failures mutate nothing. -/
def createBatch (s : Ledger) (productId locationId inwardDate : Nat)
    (boxes packsPerBox piecesPerPack : Int) (costPerBox : ℚ) :
    Ledger × Except AllocError Nat :=
  if boxes ≤ 0 then (s, Except.error AllocError.invalidQuantity)
  else if costPerBox < 0 then (s, Except.error AllocError.invalidCost)
  else if packsPerBox ≤ 0 then (s, Except.error AllocError.invalidRatio)
  else if piecesPerPack ≤ 0 then (s, Except.error AllocError.invalidRatio)
  else
    let totalPieces := boxes * packsPerBox * piecesPerPack
    let newBatch : Batch :=
      { id := s.nextId, productId := productId, locationId := locationId,
        inwardDate := inwardDate, totalPcs := totalPieces,
        remainingPcs := totalPieces,
        costPerPcs := costPerBox / (packsPerBox : ℚ) / (piecesPerPack : ℚ) }
    ({ batches := s.batches ++ [newBatch], movements := s.movements,
       nextId := s.nextId + 1 },
     Except.ok s.nextId)

/-- Modelled from the spec: `Reverse` (§4.4 step 6) — a previously emitted
set of movements `ms₁` is taken back: each batch is incremented by the
pieces those movements consumed from it and the movements are removed from
the ledger (the remaining movements are `ms₂`). -/
def reverseMovements (s : Ledger) (ms₁ ms₂ : List Movement) : Ledger :=
  { batches := s.batches.map
      (fun b => { b with remainingPcs := b.remainingPcs + consumedFor b.id ms₁ }),
    movements := ms₂,
    nextId := s.nextId }

/-- The empty ledger. -/
def initLedger : Ledger :=
  { batches := [], movements := [], nextId := 0 }

/-- Modelled from the spec: the operations that may change the ledger —
batch creation, allocation, and reversal of a sublist of the recorded
movements (§4.2, §4.4, §6). -/
inductive Step : Ledger → Ledger → Prop where
  | create (s : Ledger) (productId locationId inwardDate : Nat)
      (boxes packsPerBox piecesPerPack : Int) (costPerBox : ℚ) :
      Step s (createBatch s productId locationId inwardDate
        boxes packsPerBox piecesPerPack costPerBox).1
  | alloc (s : Ledger) (p : Nat) (loc : Option Nat) (qty : Int) :
      Step s (allocate s p loc qty).1
  | reverse (s : Ledger) (ms₁ ms₂ : List Movement)
      (h : s.movements.Perm (ms₁ ++ ms₂)) :
      Step s (reverseMovements s ms₁ ms₂)

/-- Ledger states reachable from the empty ledger by engine operations. -/
inductive Reachable : Ledger → Prop where
  | init : Reachable initLedger
  | step {s s' : Ledger} : Reachable s → Step s s' → Reachable s'

/-- The older demonstration batch of the spec's example scenario (§8):
inward day 1, 10 boxes × 5 packs × 2 pieces = 100 pieces at cost 10 per
piece. -/
def batchA : Batch :=
  { id := 0, productId := 1, locationId := 7, inwardDate := 1,
    totalPcs := 100, remainingPcs := 100, costPerPcs := 10 }

/-- The younger demonstration batch of the spec's example scenario (§8):
inward day 2, 100 pieces at cost 12 per piece. -/
def batchB : Batch :=
  { id := 1, productId := 1, locationId := 7, inwardDate := 2,
    totalPcs := 100, remainingPcs := 100, costPerPcs := 12 }

/-- A ledger holding the two demonstration batches. -/
def twoBatchLedger : Ledger :=
  { batches := [batchA, batchB], movements := [], nextId := 2 }

/-- The ledger obtained by creating the spec's example batch
(10 boxes × 5 packs × 2 pieces at 100 per box) on the empty ledger. -/
def demoLedger1 : Ledger :=
  (createBatch initLedger 1 7 1 10 5 2 100).1

/-- The batch record `createBatch` builds for the spec's example batch. -/
def demoCreatedBatch : Batch :=
  { id := 0, productId := 1, locationId := 7, inwardDate := 1,
    totalPcs := 10 * 5 * 2, remainingPcs := 10 * 5 * 2,
    costPerPcs := (100 : ℚ) / ((5 : Int) : ℚ) / ((2 : Int) : ℚ) }

end BatchEngine

namespace Frontend

/-- A product category as in `src/types/index.ts` (`Category`): carries
the GST rate applied to purchase lines of its products. -/
structure CategoryRec where
  name : String
  gstRate : ℚ
deriving DecidableEq

/-- A product as in `src/types/index.ts` (`Product`), with the optional
embedded category of the API payload. -/
structure ProductRec where
  id : String
  category : Option CategoryRec
deriving DecidableEq

/-- One line of the inward (purchase) invoice form
(`InwardInvoiceFormData.items` on the Inward page): boxes, the two
conversion ratios, and the rate per box.  `packPerPiece` is the field the
form uses for the pieces-per-pack ratio. -/
structure InwardItemForm where
  productId : String
  boxes : ℚ
  packPerBox : ℚ
  packPerPiece : ℚ
  ratePerBox : ℚ
deriving DecidableEq

/-- JavaScript `x || d` on a number `x` known to be defined: `x` unless it
is falsy (zero). -/
def jsOrQ (x d : ℚ) : ℚ :=
  if x = 0 then d else x

/-- JavaScript `x || d` on a possibly-undefined number `x`. -/
def jsOrOpt (x : Option ℚ) (d : ℚ) : ℚ :=
  match x with
  | none => d
  | some v => if v = 0 then d else v

/-- `product?.category?.gstRate || 0` as read by the Inward page. -/
def inwardLineGstRate (product : Option ProductRec) : ℚ :=
  jsOrOpt (product.bind (fun p => p.category.map (fun c => c.gstRate))) 0

/-- `calculateItemTotal` from the Inward page: looks the product up, and
returns `baseAmount + gstAmount` where `baseAmount = boxes × ratePerBox`
and `gstAmount = baseAmount × gstRate / 100`; yields 0 when the product is
not found. -/
def calculateItemTotal (products : List ProductRec) (item : InwardItemForm) : ℚ :=
  match products.find? (fun p => p.id == item.productId) with
  | none => 0
  | some product =>
    let baseAmount := item.boxes * item.ratePerBox
    let gstAmount := baseAmount * inwardLineGstRate (some product) / 100
    baseAmount + gstAmount

/-- `baseAmount` of an inward item row (Inward page render block). -/
def inwardBaseAmount (item : InwardItemForm) : ℚ :=
  item.boxes * item.ratePerBox

/-- `gstAmount` of an inward item row: `baseAmount × gstRate / 100`. -/
def inwardGstAmount (item : InwardItemForm) (product : Option ProductRec) : ℚ :=
  inwardBaseAmount item * inwardLineGstRate product / 100

/-- `totalAmount` of an inward item row: base plus GST. -/
def inwardTotalAmount (item : InwardItemForm) (product : Option ProductRec) : ℚ :=
  inwardBaseAmount item + inwardGstAmount item product

/-- `totalPacks` of an inward item row: `boxes × packPerBox`. -/
def inwardTotalPacks (item : InwardItemForm) : ℚ :=
  item.boxes * item.packPerBox

/-- `totalPcs` of an inward item row: `totalPacks × packPerPiece`. -/
def inwardTotalPcs (item : InwardItemForm) : ℚ :=
  inwardTotalPacks item * item.packPerPiece

/-- `ratePerPack` of an inward item row: `ratePerBox / (packPerBox || 1)`. -/
def inwardRatePerPack (item : InwardItemForm) : ℚ :=
  item.ratePerBox / jsOrQ item.packPerBox 1

/-- `ratePerPcs` of an inward item row: `ratePerPack / (packPerPiece || 1)`. -/
def inwardRatePerPcs (item : InwardItemForm) : ℚ :=
  inwardRatePerPack item / jsOrQ item.packPerPiece 1

/-- `StockBatch` from `src/types/index.ts`, extended with the pack-level
fields the pages read on newer payloads (`packPerBox`, `costPerPack`,
`remainingPacks`), which are absent on legacy records. -/
structure StockBatchRec where
  id : String
  productId : String
  vendorId : String
  locationId : String
  inwardDate : Nat
  boxes : ℚ
  pcsPerBox : ℚ
  totalPcs : ℚ
  remainingBoxes : ℚ
  remainingPcs : ℚ
  costPerBox : ℚ
  costPerPcs : ℚ
  packPerBox : Option ℚ
  costPerPack : Option ℚ
  remainingPacks : Option ℚ
deriving DecidableEq

/-- The Batch Value column of the Inventory batches table: remaining
pieces times cost per piece. -/
def batchTotalValue (b : StockBatchRec) : ℚ :=
  b.remainingPcs * b.costPerPcs

/-- The Total Value statistic of the Inventory batches view: the reduce
over `batch.remainingPcs * batch.costPerPcs` starting from 0. -/
def inventoryTotalValue (batches : List StockBatchRec) : ℚ :=
  batches.foldl (fun sum b => sum + b.remainingPcs * b.costPerPcs) 0

/-- A row of the stock summary (`StockSummary` in `inventoryService.ts`),
restricted to the fields the Inventory page reads. -/
structure StockSummaryRec where
  productId : String
  totalBoxes : ℚ
  totalPacks : ℚ
  totalPcs : ℚ
  totalValue : ℚ
deriving DecidableEq

/-- The low-stock test of the Inventory page: `item.totalPcs < 100`, with
the threshold written into the page. -/
def isLowStock (item : StockSummaryRec) : Bool :=
  decide (item.totalPcs < 100)

/-- `lowStockItems` of the Inventory page: the summary rows with
`totalPcs < 100`. -/
def lowStockItems (stockSummary : List StockSummaryRec) : List StockSummaryRec :=
  stockSummary.filter (fun item => decide (item.totalPcs < 100))

/-- Modelled from the spec: the low-stock flag of §4.5 takes the threshold
as a caller-supplied policy input; stated here to compare with the page's
hard-coded test.  The aggregation engine behind `/inventory/stock-summary`
is backend code not present in the repository sources. -/
def lowStockSpec (threshold : ℚ) (item : StockSummaryRec) : Bool :=
  decide (item.totalPcs < threshold)

/-- Field-level failures of the Inward form's zod schema (`inwardSchema`). -/
inductive InwardFieldError where
  | productRequired
  | boxesMin
  | packPerBoxMin
  | packPerPieceMin
  | rateMin
deriving DecidableEq

/-- The checks of `inwardSchema.items`: product nonempty, `boxes ≥ 1`,
`packPerBox ≥ 1`, `packPerPiece ≥ 1`, `ratePerBox ≥ 0`. -/
def inwardItemErrors (i : InwardItemForm) : List InwardFieldError :=
  (if i.productId.length < 1 then [InwardFieldError.productRequired] else []) ++
  (if i.boxes < 1 then [InwardFieldError.boxesMin] else []) ++
  (if i.packPerBox < 1 then [InwardFieldError.packPerBoxMin] else []) ++
  (if i.packPerPiece < 1 then [InwardFieldError.packPerPieceMin] else []) ++
  (if i.ratePerBox < 0 then [InwardFieldError.rateMin] else [])

/-- An item passes `inwardSchema` when no check fails. -/
def inwardItemValid (i : InwardItemForm) : Bool :=
  decide (inwardItemErrors i = [])

/-- The submit path of the Inward form: `zodResolver(inwardSchema)` runs
`onSubmit` (which posts the line) only when validation succeeds; on
failure nothing is posted. -/
def submitInwardItem (posted : List InwardItemForm) (i : InwardItemForm) :
    List InwardItemForm × Bool :=
  if inwardItemValid i then (posted ++ [i], true) else (posted, false)

/-- Cost per pack as computed by the Outward pages (suggested-rate handler
and stock-information panel): `costPerPack || costPerBox / (packPerBox || 1)`. -/
def outwardCostPerPack (b : StockBatchRec) : ℚ :=
  jsOrOpt b.costPerPack (b.costPerBox / jsOrOpt b.packPerBox 1)

/-- Cost per pack in the Inventory batches table:
`costPerPack || costPerBox / (packPerBox || pcsPerBox || 1)`. -/
def inventoryCostPerPack (b : StockBatchRec) : ℚ :=
  jsOrOpt b.costPerPack (b.costPerBox / jsOrOpt b.packPerBox (jsOrQ b.pcsPerBox 1))

/-- Sale units of the outward form. -/
inductive SaleUnit where
  | box
  | pack
  | piece
deriving DecidableEq

/-- JavaScript `Math.round`: round half toward positive infinity. -/
def jsRound (x : ℚ) : Int :=
  ⌊x + 1 / 2⌋

/-- `Math.round(v * 100) / 100`: round to the nearest 0.01, half up. -/
def roundTo2 (x : ℚ) : ℚ :=
  (jsRound (x * 100) : ℚ) / 100

/-- The pre-rounding suggested rate of `handleStockBatchChange`: the
selected batch's cost in the chosen sale unit with a 20% markup. -/
def suggestedRate (saleUnit : SaleUnit) (b : StockBatchRec) : ℚ :=
  match saleUnit with
  | SaleUnit.box => b.costPerBox * (12 / 10)
  | SaleUnit.pack => outwardCostPerPack b * (12 / 10)
  | SaleUnit.piece => b.costPerPcs * (12 / 10)

/-- The rate `handleStockBatchChange` writes into the form field. -/
def handleStockBatchRate (saleUnit : SaleUnit) (b : StockBatchRec) : ℚ :=
  roundTo2 (suggestedRate saleUnit b)

/-- A demonstration category with 18% GST. -/
def demoCategory : CategoryRec :=
  { name := "Tiles", gstRate := 18 }

/-- A demonstration product in `demoCategory`. -/
def demoProduct : ProductRec :=
  { id := "p1", category := some demoCategory }

/-- A concrete inward line: 2 boxes, 3 packs per box, 4 pieces per pack,
rate 50 per box. -/
def demoInwardItem : InwardItemForm :=
  { productId := "p1", boxes := 2, packPerBox := 3, packPerPiece := 4, ratePerBox := 50 }

/-- An inward line with a strictly positive but sub-1 pack ratio. -/
def fractionalRatioItem : InwardItemForm :=
  { productId := "p1", boxes := 1, packPerBox := mkRat 1 2, packPerPiece := 1, ratePerBox := 0 }

/-- A legacy batch payload without pack-level fields but with
`pcsPerBox = 10` and `costPerBox = 100`. -/
def legacyBatch : StockBatchRec :=
  { id := "b1", productId := "p1", vendorId := "v1", locationId := "l1",
    inwardDate := 1, boxes := 5, pcsPerBox := 10, totalPcs := 50,
    remainingBoxes := 5, remainingPcs := 50, costPerBox := 100,
    costPerPcs := 10, packPerBox := none, costPerPack := none,
    remainingPacks := none }

/-- A summary row with 60 remaining pieces. -/
def summarySixty : StockSummaryRec :=
  { productId := "p1", totalBoxes := 6, totalPacks := 6, totalPcs := 60, totalValue := 600 }

/-- A batch payload carrying both pack-level fields:
`costPerPack = 25`, `packPerBox = 4`. -/
def packedBatch : StockBatchRec :=
  { id := "b2", productId := "p1", vendorId := "v1", locationId := "l1",
    inwardDate := 2, boxes := 5, pcsPerBox := 20, totalPcs := 100,
    remainingBoxes := 5, remainingPcs := 100, costPerBox := 100,
    costPerPcs := 5, packPerBox := some 4, costPerPack := some 25,
    remainingPacks := some 20 }

/-- A batch payload missing `costPerPack` but carrying `packPerBox = 4`. -/
def halfPackBatch : StockBatchRec :=
  { id := "b3", productId := "p1", vendorId := "v1", locationId := "l1",
    inwardDate := 3, boxes := 5, pcsPerBox := 20, totalPcs := 100,
    remainingBoxes := 5, remainingPcs := 100, costPerBox := 100,
    costPerPcs := 5, packPerBox := some 4, costPerPack := none,
    remainingPacks := some 20 }

end Frontend

namespace BatchEngine

theorem consumedFor_nil (id : Nat) : consumedFor id [] = 0 := rfl

theorem consumedFor_cons (id : Nat) (m : Movement) (ms : List Movement) :
    consumedFor id (m :: ms) =
      (if m.batchId = id then m.qty else 0) + consumedFor id ms := by
  by_cases h : m.batchId = id
  · simp [consumedFor, List.filter_cons, h]
  · simp [consumedFor, List.filter_cons, h]

theorem consumedFor_append (id : Nat) (ms ns : List Movement) :
    consumedFor id (ms ++ ns) = consumedFor id ms + consumedFor id ns := by
  simp [consumedFor, List.filter_append]

theorem consumedFor_perm (id : Nat) {ms ns : List Movement} (h : ms.Perm ns) :
    consumedFor id ms = consumedFor id ns :=
  List.Perm.sum_eq ((h.filter _).map _)

theorem consumedFor_eq_zero {id : Nat} {ms : List Movement}
    (h : ∀ m ∈ ms, m.batchId ≠ id) : consumedFor id ms = 0 := by
  have hnil : ms.filter (fun m => m.batchId == id) = [] := by
    rw [List.filter_eq_nil_iff]
    intro m hm
    simpa using h m hm
  simp [consumedFor, hnil]

theorem planConsume_nonpos {bs : List Batch} {need : Int} (h : need ≤ 0) :
    planConsume bs need = [] := by
  cases bs with
  | nil => rfl
  | cons b bs => simp [planConsume, h]

theorem planConsume_batchId_mem {bs : List Batch} {need : Int} {m : Movement}
    (hm : m ∈ planConsume bs need) : m.batchId ∈ bs.map Batch.id := by
  induction bs generalizing need with
  | nil => simp [planConsume] at hm
  | cons b bs ih =>
    by_cases hn : need ≤ 0
    · simp [planConsume, hn] at hm
    · simp only [planConsume, if_neg hn, List.mem_cons] at hm
      rcases hm with hm | hm
      · subst hm
        simp
      · exact List.mem_cons_of_mem _ (ih hm)

theorem consumedFor_planConsume_le {bs : List Batch}
    (hnd : (bs.map Batch.id).Nodup)
    (hnn : ∀ b ∈ bs, 0 ≤ b.remainingPcs) :
    ∀ (need : Int), ∀ b ∈ bs, consumedFor b.id (planConsume bs need) ≤ b.remainingPcs := by
  induction bs with
  | nil =>
    intro need b hb
    cases hb
  | cons c rest ih =>
    simp only [List.map_cons, List.nodup_cons] at hnd
    intro need b hb
    by_cases hn : need ≤ 0
    · rw [planConsume_nonpos hn, consumedFor_nil]
      exact hnn b hb
    · simp only [planConsume, if_neg hn]
      rcases List.mem_cons.mp hb with rfl | hbrest
      · have hzero : consumedFor b.id (planConsume rest (need - min b.remainingPcs need)) = 0 := by
          apply consumedFor_eq_zero
          intro m hm heq
          exact hnd.1 (heq ▸ planConsume_batchId_mem hm)
        rw [consumedFor_cons]
        dsimp only
        rw [hzero, if_pos rfl]
        omega
      · have hne : c.id ≠ b.id := by
          intro h
          exact hnd.1 (h ▸ List.mem_map_of_mem Batch.id hbrest)
        rw [consumedFor_cons]
        dsimp only
        rw [if_neg hne]
        have hrec := ih hnd.2 (fun x hx => hnn x (List.mem_cons_of_mem _ hx))
          (need - min c.remainingPcs need) b hbrest
        omega

theorem mem_listAvailable {s : Ledger} {p : Nat} {loc : Option Nat} {b : Batch} :
    b ∈ listAvailable s p loc ↔ b ∈ s.batches ∧ isCandidate p loc b = true := by
  unfold listAvailable
  rw [List.mem_insertionSort]
  exact List.mem_filter

theorem remaining_pos_of_mem_listAvailable {s : Ledger} {p : Nat} {loc : Option Nat}
    {b : Batch} (h : b ∈ listAvailable s p loc) : 0 < b.remainingPcs := by
  have hc := (mem_listAvailable.mp h).2
  simp only [isCandidate, Bool.and_eq_true, decide_eq_true_eq] at hc
  exact hc.2

theorem nodup_listAvailable_ids {s : Ledger} {p : Nat} {loc : Option Nat}
    (h : (s.batches.map Batch.id).Nodup) :
    ((listAvailable s p loc).map Batch.id).Nodup := by
  have hperm : ((listAvailable s p loc).map Batch.id).Perm
      ((s.batches.filter (isCandidate p loc)).map Batch.id) :=
    (List.perm_insertionSort _ _).map _
  rw [hperm.nodup_iff]
  exact ((List.filter_sublist _).map _).nodup h

theorem consumedFor_plan_le_remaining {s : Ledger} (p : Nat) (loc : Option Nat) (qty : Int)
    (hnn : ∀ b ∈ s.batches, 0 ≤ b.remainingPcs)
    (hnd : (s.batches.map Batch.id).Nodup) :
    ∀ b ∈ s.batches, consumedFor b.id (planConsume (listAvailable s p loc) qty) ≤ b.remainingPcs := by
  intro b hb
  by_cases hmem : b ∈ listAvailable s p loc
  · exact consumedFor_planConsume_le (nodup_listAvailable_ids hnd)
      (fun c hc => le_of_lt (remaining_pos_of_mem_listAvailable hc)) qty b hmem
  · have hz : consumedFor b.id (planConsume (listAvailable s p loc) qty) = 0 := by
      apply consumedFor_eq_zero
      intro m hm heq
      obtain ⟨c, hc, hcb⟩ := List.mem_map.mp (heq ▸ planConsume_batchId_mem hm)
      have hcbatch : c ∈ s.batches := (mem_listAvailable.mp hc).1
      have : c = b := List.inj_on_of_nodup_map hnd hcbatch hb hcb
      exact hmem (this ▸ hc)
    rw [hz]
    exact hnn b hb

/-- Claim C1: a request exceeding the total available pieces across the
candidate batches is rejected as a whole with `InsufficientStock` carrying
the shortfall, leaving every batch's remaining quantity exactly as before
the call (no partial commit); and no allocation ever leaves a batch with
negative remaining pieces. -/
theorem allocate_insufficient_no_partial (s : Ledger) (p : Nat) (loc : Option Nat) (qty : Int)
    (hnn : ∀ b ∈ s.batches, 0 ≤ b.remainingPcs)
    (hnd : (s.batches.map Batch.id).Nodup) :
    (totalAvailable s p loc < qty →
      allocate s p loc qty =
        (s, Except.error (AllocError.insufficientStock (qty - totalAvailable s p loc)))) ∧
    ∀ b ∈ (allocate s p loc qty).1.batches, 0 ≤ b.remainingPcs := by
  constructor
  · intro h
    simp [allocate, h]
  · intro b hb
    by_cases h : totalAvailable s p loc < qty
    · simp only [allocate, if_pos h] at hb
      exact hnn b hb
    · simp only [allocate, if_neg h, applyPlan] at hb
      obtain ⟨a, ha, rfl⟩ := List.mem_map.mp hb
      have hle := consumedFor_plan_le_remaining p loc qty hnn hnd a ha
      dsimp only
      omega

/-- Claim C1 witness: a request of 201 pieces against two batches holding
100 pieces each is rejected with shortfall 1 and the ledger is unchanged. -/
theorem allocate_insufficient_no_partial_witness :
    allocate twoBatchLedger 1 none 201 =
      (twoBatchLedger, Except.error (AllocError.insufficientStock 1)) := by
  have h := allocate_insufficient_no_partial twoBatchLedger 1 none 201 (by decide) (by decide)
  exact h.1 (by decide)

theorem step_preserves {s s' : Ledger} (hstep : Step s s')
    (h1 : ∀ b ∈ s.batches, b.remainingPcs + consumedFor b.id s.movements = b.totalPcs)
    (h2 : ∀ m ∈ s.movements, m.batchId < s.nextId)
    (h3 : ∀ b ∈ s.batches, b.id < s.nextId) :
    (∀ b ∈ s'.batches, b.remainingPcs + consumedFor b.id s'.movements = b.totalPcs) ∧
    (∀ m ∈ s'.movements, m.batchId < s'.nextId) ∧
    (∀ b ∈ s'.batches, b.id < s'.nextId) := by
  cases hstep with
  | create pid lid d bx ppb ppp cost =>
    unfold createBatch
    split_ifs with hb hc hr1 hr2
    · exact ⟨h1, h2, h3⟩
    · exact ⟨h1, h2, h3⟩
    · exact ⟨h1, h2, h3⟩
    · exact ⟨h1, h2, h3⟩
    · refine ⟨?_, ?_, ?_⟩
      · intro b hb'
        rcases List.mem_append.mp hb' with h | h
        · exact h1 b h
        · rw [List.mem_singleton] at h
          subst h
          have hz : consumedFor s.nextId s.movements = 0 :=
            consumedFor_eq_zero (fun m hm => Nat.ne_of_lt (h2 m hm))
          simp [hz]
      · intro m hm
        exact Nat.lt_succ_of_lt (h2 m hm)
      · intro b hb'
        rcases List.mem_append.mp hb' with h | h
        · exact Nat.lt_succ_of_lt (h3 b h)
        · rw [List.mem_singleton] at h
          subst h
          exact Nat.lt_succ_self _
  | alloc p loc qty =>
    by_cases h : totalAvailable s p loc < qty
    · simp only [allocate, if_pos h]
      exact ⟨h1, h2, h3⟩
    · have hplansub : ∀ m ∈ planConsume (listAvailable s p loc) qty, m.batchId < s.nextId := by
        intro m hm
        obtain ⟨c, hc, hcb⟩ := List.mem_map.mp (planConsume_batchId_mem hm)
        exact hcb ▸ h3 c (mem_listAvailable.mp hc).1
      simp only [allocate, if_neg h, applyPlan]
      refine ⟨?_, ?_, ?_⟩
      · intro b hb'
        obtain ⟨a, ha, rfl⟩ := List.mem_map.mp hb'
        have hcons := h1 a ha
        dsimp only
        rw [consumedFor_append]
        omega
      · intro m hm
        rcases List.mem_append.mp hm with h' | h'
        · exact h2 m h'
        · exact hplansub m h'
      · intro b hb'
        obtain ⟨a, ha, rfl⟩ := List.mem_map.mp hb'
        exact h3 a ha
  | reverse ms₁ ms₂ hperm =>
    have hsplit : ∀ id, consumedFor id s.movements = consumedFor id ms₁ + consumedFor id ms₂ :=
      fun id => (consumedFor_perm id hperm).trans (consumedFor_append id ms₁ ms₂)
    refine ⟨?_, ?_, ?_⟩
    · intro b hb'
      obtain ⟨a, ha, rfl⟩ := List.mem_map.mp hb'
      have hcons := h1 a ha
      have hs := hsplit a.id
      simp only [reverseMovements]
      omega
    · intro m hm
      exact h2 m (hperm.mem_iff.mpr (List.mem_append_right _ hm))
    · intro b hb'
      obtain ⟨a, ha, rfl⟩ := List.mem_map.mp hb'
      exact h3 a ha

/-- Claim C2: conservation — in every reachable ledger state, every batch's
remaining pieces plus the pieces consumed from it across all recorded
movements equals the batch's total pieces. -/
theorem conservation_invariant (s : Ledger) (hs : Reachable s) :
    ∀ b ∈ s.batches, b.remainingPcs + consumedFor b.id s.movements = b.totalPcs := by
  have main : ∀ t : Ledger, Reachable t →
      (∀ b ∈ t.batches, b.remainingPcs + consumedFor b.id t.movements = b.totalPcs) ∧
      (∀ m ∈ t.movements, m.batchId < t.nextId) ∧
      (∀ b ∈ t.batches, b.id < t.nextId) := by
    intro t ht
    induction ht with
    | init =>
      refine ⟨?_, ?_, ?_⟩ <;> intro x hx <;> simp [initLedger] at hx
    | step hr hstep ih =>
      exact step_preserves hstep ih.1 ih.2.1 ih.2.2
  exact (main s hs).1

/-- Claim C2 witness: conservation holds for the batch created by a
concrete `createBatch` call on the empty ledger. -/
theorem conservation_invariant_witness :
    demoCreatedBatch.remainingPcs + consumedFor demoCreatedBatch.id demoLedger1.movements
      = demoCreatedBatch.totalPcs :=
  conservation_invariant demoLedger1
    (Reachable.step Reachable.init (Step.create initLedger 1 7 1 10 5 2 100))
    demoCreatedBatch (List.mem_singleton.mpr rfl)

/-- Claim C3: `listAvailable` returns exactly the batches of the product
(under the optional location filter) with positive remaining pieces, in
FIFO order — inward date ascending, ties broken by batch id ascending —
and a sale fully satisfiable from the oldest listed batch alone consumes
only that batch, leaving every other batch untouched. -/
theorem listAvailable_fifo (s : Ledger) (p : Nat) (loc : Option Nat) :
    (listAvailable s p loc).Perm (s.batches.filter (isCandidate p loc)) ∧
    (listAvailable s p loc).Sorted fifoLE ∧
    (∀ (b₀ : Batch) (rest : List Batch) (qty : Int),
      listAvailable s p loc = b₀ :: rest → 0 < qty → qty ≤ b₀.remainingPcs →
      (allocate s p loc qty).2 =
        Except.ok [{ batchId := b₀.id, qty := qty, cost := b₀.costPerPcs }] ∧
      (allocate s p loc qty).1.batches =
        s.batches.map (fun b =>
          if b.id = b₀.id then { b with remainingPcs := b.remainingPcs - qty } else b)) := by
  refine ⟨List.perm_insertionSort _ _, List.sorted_insertionSort _ _, ?_⟩
  intro b₀ rest qty hEq hq hle
  have hsum : 0 ≤ (rest.map Batch.remainingPcs).sum := by
    apply List.sum_nonneg
    intro x hx
    obtain ⟨r, hr, rfl⟩ := List.mem_map.mp hx
    have hrmem : r ∈ listAvailable s p loc := hEq ▸ List.mem_cons_of_mem _ hr
    exact le_of_lt (remaining_pos_of_mem_listAvailable hrmem)
  have havail : totalAvailable s p loc = b₀.remainingPcs + (rest.map Batch.remainingPcs).sum := by
    unfold totalAvailable
    rw [hEq]
    simp
  have hno : ¬ totalAvailable s p loc < qty := by omega
  have hmin : min b₀.remainingPcs qty = qty := min_eq_right hle
  have hplan : planConsume (listAvailable s p loc) qty =
      [{ batchId := b₀.id, qty := qty, cost := b₀.costPerPcs }] := by
    rw [hEq]
    simp only [planConsume, if_neg (by omega : ¬ qty ≤ 0), hmin, sub_self,
      planConsume_nonpos (le_refl (0 : Int))]
  constructor
  · simp [allocate, if_neg hno, hplan]
  · simp only [allocate, if_neg hno, applyPlan, hplan]
    apply List.map_congr_left
    intro a ha
    by_cases hid : a.id = b₀.id
    · rw [if_pos hid]
      have : consumedFor a.id [{ batchId := b₀.id, qty := qty, cost := b₀.costPerPcs }] = qty := by
        simp [consumedFor_cons, consumedFor_nil, hid.symm]
      rw [this]
    · rw [if_neg hid]
      have hne : b₀.id ≠ a.id := fun h => hid h.symm
      have : consumedFor a.id [{ batchId := b₀.id, qty := qty, cost := b₀.costPerPcs }] = 0 := by
        simp [consumedFor_cons, consumedFor_nil, hne]
      rw [this, sub_zero]

/-- Claim C3 witness: with an older batch (day 1) holding 100 pieces and a
younger one (day 2), a sale of 60 pieces consumes only the older batch. -/
theorem listAvailable_fifo_witness :
    (allocate twoBatchLedger 1 none 60).2 =
      Except.ok [{ batchId := batchA.id, qty := 60, cost := batchA.costPerPcs }] ∧
    (allocate twoBatchLedger 1 none 60).1.batches =
      twoBatchLedger.batches.map (fun b =>
        if b.id = batchA.id then { b with remainingPcs := b.remainingPcs - 60 } else b) :=
  (listAvailable_fifo twoBatchLedger 1 none).2.2 batchA [batchB] 60
    (by decide) (by decide) (by decide)

end BatchEngine

namespace Frontend

theorem inwardLineGstRate_of_category {p : ProductRec} {c : CategoryRec}
    (hcat : p.category = some c) : inwardLineGstRate (some p) = c.gstRate := by
  by_cases h : c.gstRate = 0
  · simp [inwardLineGstRate, jsOrOpt, hcat, h]
  · simp [inwardLineGstRate, jsOrOpt, hcat, h]

/-- Claim C4: for a purchase line whose product carries a category with GST
rate `g`, the GST amount is `(boxes × ratePerBox) × g / 100` and the line
total is the base amount `boxes × ratePerBox` plus that GST amount — both
in the per-item render block and in `calculateItemTotal`. -/
theorem inward_gst_and_total (products : List ProductRec) (item : InwardItemForm)
    (p : ProductRec) (c : CategoryRec)
    (hfind : products.find? (fun q => q.id == item.productId) = some p)
    (hcat : p.category = some c) :
    inwardGstAmount item (some p) = (item.boxes * item.ratePerBox) * c.gstRate / 100 ∧
    inwardTotalAmount item (some p) =
      item.boxes * item.ratePerBox + (item.boxes * item.ratePerBox) * c.gstRate / 100 ∧
    calculateItemTotal products item = inwardTotalAmount item (some p) := by
  have hrate := inwardLineGstRate_of_category hcat
  refine ⟨?_, ?_, ?_⟩
  · simp [inwardGstAmount, inwardBaseAmount, hrate]
  · simp [inwardTotalAmount, inwardGstAmount, inwardBaseAmount, hrate]
  · simp [calculateItemTotal, hfind, inwardTotalAmount, inwardGstAmount, inwardBaseAmount]

/-- Claim C4 witness: the formulas at a concrete line (2 boxes at 50 with
18% GST). -/
theorem inward_gst_and_total_witness :
    inwardGstAmount demoInwardItem (some demoProduct) =
      (demoInwardItem.boxes * demoInwardItem.ratePerBox) * demoCategory.gstRate / 100 ∧
    inwardTotalAmount demoInwardItem (some demoProduct) =
      demoInwardItem.boxes * demoInwardItem.ratePerBox +
        (demoInwardItem.boxes * demoInwardItem.ratePerBox) * demoCategory.gstRate / 100 ∧
    calculateItemTotal [demoProduct] demoInwardItem =
      inwardTotalAmount demoInwardItem (some demoProduct) :=
  inward_gst_and_total [demoProduct] demoInwardItem demoProduct demoCategory
    (by decide) rfl

/-- Claim C5: the derived quantities of an inward line with nonzero ratios:
total packs = boxes × packPerBox, total pieces = total packs ×
packPerPiece, rate per pack = ratePerBox / packPerBox, and rate per piece
= rate per pack / packPerPiece. -/
theorem inward_derived_quantities (item : InwardItemForm)
    (hpb : item.packPerBox ≠ 0) (hpp : item.packPerPiece ≠ 0) :
    inwardTotalPacks item = item.boxes * item.packPerBox ∧
    inwardTotalPcs item = inwardTotalPacks item * item.packPerPiece ∧
    inwardRatePerPack item = item.ratePerBox / item.packPerBox ∧
    inwardRatePerPcs item = inwardRatePerPack item / item.packPerPiece := by
  refine ⟨rfl, rfl, ?_, ?_⟩
  · simp [inwardRatePerPack, jsOrQ, hpb]
  · simp [inwardRatePerPcs, jsOrQ, hpp]

/-- Claim C5 witness: the derived quantities at a concrete line
(2 boxes × 3 packs × 4 pieces at 50 per box). -/
theorem inward_derived_quantities_witness :
    inwardTotalPacks demoInwardItem = demoInwardItem.boxes * demoInwardItem.packPerBox ∧
    inwardTotalPcs demoInwardItem = inwardTotalPacks demoInwardItem * demoInwardItem.packPerPiece ∧
    inwardRatePerPack demoInwardItem = demoInwardItem.ratePerBox / demoInwardItem.packPerBox ∧
    inwardRatePerPcs demoInwardItem = inwardRatePerPack demoInwardItem / demoInwardItem.packPerPiece :=
  inward_derived_quantities demoInwardItem (by decide) (by decide)

theorem foldl_value_eq_sum (l : List StockBatchRec) :
    ∀ a : ℚ, l.foldl (fun sum b => sum + b.remainingPcs * b.costPerPcs) a
      = a + (l.map batchTotalValue).sum := by
  induction l with
  | nil => intro a; simp
  | cons x xs ih =>
    intro a
    simp only [List.foldl_cons, List.map_cons, List.sum_cons, ih, batchTotalValue]
    ring

/-- Claim C6: a batch's stock value is remainingPcs × costPerPcs, and the
aggregate stock value over a set of batches is the sum of those per-batch
values. -/
theorem stock_valuation :
    ∀ (b : StockBatchRec) (batches : List StockBatchRec),
      batchTotalValue b = b.remainingPcs * b.costPerPcs ∧
      inventoryTotalValue batches = (batches.map batchTotalValue).sum := by
  intro b batches
  refine ⟨rfl, ?_⟩
  rw [inventoryTotalValue, foldl_value_eq_sum]
  simp

/-- Claim C7 counterexample: the Inventory page flags a 60-piece product as
low stock even though a caller-supplied threshold of 50 would not — the
threshold is not a caller input. -/
theorem lowStock_counterexample :
    isLowStock summarySixty = true ∧ lowStockSpec 50 summarySixty = false := by
  decide

/-- Claim C7 (amended): the stock-summary page flags a product as low
stock exactly when its remaining pieces fall below 100; the threshold is
the constant 100 hard-coded in the page, not a caller-supplied parameter. -/
theorem lowStock_hardcoded_hundred :
    ∀ (item : StockSummaryRec) (stockSummary : List StockSummaryRec),
      isLowStock item = lowStockSpec 100 item ∧
      lowStockItems stockSummary = stockSummary.filter (lowStockSpec 100) := by
  intro item stockSummary
  exact ⟨rfl, rfl⟩

/-- Claim C8 counterexample: a line with boxes ≥ 1, strictly positive
ratios and nonnegative rate is nevertheless rejected by `inwardSchema`,
because the schema requires each ratio to be at least 1 (here
packPerBox = 1/2). -/
theorem inwardSchema_counterexample :
    1 ≤ fractionalRatioItem.boxes ∧ 0 < fractionalRatioItem.packPerBox ∧
    0 < fractionalRatioItem.packPerPiece ∧ 0 ≤ fractionalRatioItem.ratePerBox ∧
    inwardItemValid fractionalRatioItem = false := by
  decide

/-- Claim C8 (amended): `inwardSchema` rejects a line with boxes ≤ 0 (the
boxes-minimum failure, the spec's `InvalidQuantity`) and one with
ratePerBox < 0 (the rate-minimum failure, the spec's `InvalidCost`);
rejection happens before any mutation — an invalid line is never posted;
and a line passes exactly when the product is nonempty, boxes ≥ 1, both
ratios are at least 1 (not merely positive), and ratePerBox ≥ 0. -/
theorem inwardSchema_validation (i : InwardItemForm) (posted : List InwardItemForm) :
    (i.boxes ≤ 0 →
      InwardFieldError.boxesMin ∈ inwardItemErrors i ∧ inwardItemValid i = false) ∧
    (i.ratePerBox < 0 →
      InwardFieldError.rateMin ∈ inwardItemErrors i ∧ inwardItemValid i = false) ∧
    (0 < i.productId.length → 1 ≤ i.boxes → 1 ≤ i.packPerBox → 1 ≤ i.packPerPiece →
      0 ≤ i.ratePerBox → inwardItemValid i = true) ∧
    (inwardItemValid i = false → submitInwardItem posted i = (posted, false)) := by
  refine ⟨?_, ?_, ?_, ?_⟩
  · intro h
    have hlt : i.boxes < 1 := by linarith
    have hmem : InwardFieldError.boxesMin ∈ inwardItemErrors i := by
      unfold inwardItemErrors
      rw [if_pos hlt]
      simp [List.mem_append]
    refine ⟨hmem, ?_⟩
    unfold inwardItemValid
    apply decide_eq_false
    intro heq
    rw [heq] at hmem
    cases hmem
  · intro h
    have hmem : InwardFieldError.rateMin ∈ inwardItemErrors i := by
      unfold inwardItemErrors
      rw [if_pos h]
      simp [List.mem_append]
    refine ⟨hmem, ?_⟩
    unfold inwardItemValid
    apply decide_eq_false
    intro heq
    rw [heq] at hmem
    cases hmem
  · intro hlen hb hpb hpp hr
    have h1 : ¬ i.productId.length < 1 := by omega
    have h2 : ¬ i.boxes < 1 := not_lt.mpr hb
    have h3 : ¬ i.packPerBox < 1 := not_lt.mpr hpb
    have h4 : ¬ i.packPerPiece < 1 := not_lt.mpr hpp
    have h5 : ¬ i.ratePerBox < 0 := not_lt.mpr hr
    simp [inwardItemValid, inwardItemErrors, h1, h2, h3, h4, h5]
  · intro hfalse
    simp [submitInwardItem, hfalse]

/-- Claim C8 witness: a fully valid line passes, and the invalid
fractional-ratio line is not posted. -/
theorem inwardSchema_validation_witness :
    inwardItemValid demoInwardItem = true ∧
    submitInwardItem [] fractionalRatioItem = ([], false) :=
  ⟨(inwardSchema_validation demoInwardItem []).2.2.1
      (by decide) (by decide) (by decide) (by decide) (by decide),
   (inwardSchema_validation fractionalRatioItem []).2.2.2 (by decide)⟩

/-- Claim C9 counterexample: on a legacy batch missing both costPerPack
and packPerBox, the Inventory batches table derives cost per pack as
costPerBox / pcsPerBox (here 100 / 10 = 10), not costPerBox / 1 = 100 as
the Outward pages do — the missing ratio is not uniformly treated as 1. -/
theorem packRatio_counterexample :
    outwardCostPerPack legacyBatch = legacyBatch.costPerBox / 1 ∧
    inventoryCostPerPack legacyBatch ≠ legacyBatch.costPerBox / 1 ∧
    inventoryCostPerPack legacyBatch = 10 := by
  refine ⟨?_, ?_, ?_⟩ <;>
    norm_num [outwardCostPerPack, inventoryCostPerPack, jsOrOpt, jsOrQ, legacyBatch]

/-- Claim C9 (amended): when costPerPack and packPerBox are both absent,
the Outward pages compute cost per pack as costPerBox / 1, but the
Inventory batches table falls back to pcsPerBox first and uses 1 only when
pcsPerBox is also zero — the fallback is not uniform across the pages. -/
theorem packRatio_fallback (b : StockBatchRec)
    (hc : b.costPerPack = none) (hp : b.packPerBox = none) :
    outwardCostPerPack b = b.costPerBox / 1 ∧
    (b.pcsPerBox = 0 → inventoryCostPerPack b = b.costPerBox / 1) ∧
    (b.pcsPerBox ≠ 0 → inventoryCostPerPack b = b.costPerBox / b.pcsPerBox) := by
  refine ⟨?_, ?_, ?_⟩
  · simp [outwardCostPerPack, jsOrOpt, hc, hp]
  · intro h
    simp [inventoryCostPerPack, jsOrOpt, jsOrQ, hc, hp, h]
  · intro h
    simp [inventoryCostPerPack, jsOrOpt, jsOrQ, hc, hp, h]

/-- Claim C9 witness: the two fallbacks at the concrete legacy batch. -/
theorem packRatio_fallback_witness :
    outwardCostPerPack legacyBatch = legacyBatch.costPerBox / 1 ∧
    inventoryCostPerPack legacyBatch = legacyBatch.costPerBox / legacyBatch.pcsPerBox :=
  ⟨(packRatio_fallback legacyBatch rfl rfl).1,
   (packRatio_fallback legacyBatch rfl rfl).2.2 (by decide)⟩

/-- Claim C10: for every selected stock batch, the suggested rate is the
batch's cost in the chosen sale unit times 1.2, rounded to the nearest
0.01 by half-up rounding (Math.round of 100× the value, divided by 100).
The cost used for the pack unit is `outwardCostPerPack`: the batch's
costPerPack when present (nonzero), otherwise costPerBox / packPerBox
when that ratio is present (nonzero), and costPerBox / 1 when both
pack-level fields are absent. -/
theorem suggestedRate_markup (b : StockBatchRec) :
    handleStockBatchRate SaleUnit.box b = roundTo2 (b.costPerBox * (12 / 10)) ∧
    handleStockBatchRate SaleUnit.piece b = roundTo2 (b.costPerPcs * (12 / 10)) ∧
    handleStockBatchRate SaleUnit.pack b = roundTo2 (outwardCostPerPack b * (12 / 10)) ∧
    (∀ v : ℚ, b.costPerPack = some v → v ≠ 0 → outwardCostPerPack b = v) ∧
    (b.costPerPack = none →
      (∀ r : ℚ, b.packPerBox = some r → r ≠ 0 →
        outwardCostPerPack b = b.costPerBox / r) ∧
      (b.packPerBox = none → outwardCostPerPack b = b.costPerBox / 1)) ∧
    (∀ x : ℚ, roundTo2 x * 100 = (jsRound (x * 100) : ℚ) ∧
      (jsRound (x * 100) : ℚ) ≤ x * 100 + 1 / 2 ∧
      x * 100 - 1 / 2 < (jsRound (x * 100) : ℚ)) := by
  refine ⟨rfl, rfl, rfl, ?_, ?_, ?_⟩
  · intro v hv hvne
    simp [outwardCostPerPack, jsOrOpt, hv, hvne]
  · intro hc
    constructor
    · intro r hr hrne
      simp [outwardCostPerPack, jsOrOpt, hc, hr, hrne]
    · intro hp
      simp [outwardCostPerPack, jsOrOpt, hc, hp]
  · intro x
    refine ⟨?_, ?_, ?_⟩
    · rw [roundTo2]
      exact div_mul_cancel₀ _ (by norm_num)
    · simpa [jsRound] using Int.floor_le (x * 100 + 1 / 2)
    · have h2 : x * 100 + 1 / 2 < (⌊x * 100 + 1 / 2⌋ : ℚ) + 1 :=
        Int.lt_floor_add_one (x * 100 + 1 / 2)
      rw [jsRound]
      linarith

/-- Claim C10 witness: the pack-unit markup at a batch carrying both
pack-level fields, and all three cost fallbacks at concrete batches
(costPerPack present, packPerBox only, neither), plus the half-up bound
at x = 1/3. -/
theorem suggestedRate_markup_witness :
    handleStockBatchRate SaleUnit.pack packedBatch =
      roundTo2 (outwardCostPerPack packedBatch * (12 / 10)) ∧
    outwardCostPerPack packedBatch = 25 ∧
    outwardCostPerPack halfPackBatch = halfPackBatch.costPerBox / 4 ∧
    outwardCostPerPack legacyBatch = legacyBatch.costPerBox / 1 ∧
    (jsRound (((1 : ℚ) / 3) * 100) : ℚ) ≤ ((1 : ℚ) / 3) * 100 + 1 / 2 :=
  ⟨(suggestedRate_markup packedBatch).2.2.1,
   (suggestedRate_markup packedBatch).2.2.2.1 25 rfl (by decide),
   ((suggestedRate_markup halfPackBatch).2.2.2.2.1 rfl).1 4 rfl (by decide),
   ((suggestedRate_markup legacyBatch).2.2.2.2.1 rfl).2 rfl,
   ((suggestedRate_markup legacyBatch).2.2.2.2.2 (1 / 3)).2.1⟩

end Frontend
